import Mathlib

/-!
Verification of the GovRedemption utility (`main.go`).

The file embeds the core of the program shallowly in Lean:

* `StaffMapping`, `parseInt64`, `loadRowsAux` / `loadRows`,
  `LoadMappingFromCSV` model the CSV loading step; the OS-level effects
  (opening the file, `csv.Reader.ReadAll`) are abstracted into a
  `CSVSource` input describing their outcome.
* `BuildLookupMap` models the Go map built by sequential insertion; a Go
  map is modelled as a function `String → Option String`.
* `Redemption`, `RMState`, `NewRedemptionManager`, `IsEligible`,
  `AddRedemption` model the redemption guard.  The `redemptions` Go map
  is modelled as an association list; since `AddRedemption` inserts a key
  only when it is absent, insertion is modelled as appending a binding.
  The wall-clock read `time.Now().UnixMilli()` is an input parameter.
* `Op`, `step`, `run` give the trace semantics used for the reachability
  and temporal properties.  Because every exported operation of the Go
  `RedemptionManager` holds the single mutex `mu` for its whole body,
  any concurrent execution is equivalent to some sequential interleaving
  of whole operations, which is exactly what a list of `Op`s describes.
-/

/-- `StaffMapping` from `main.go`: a record mapping a staff pass ID to a
team name, with a creation timestamp in epoch milliseconds. -/
structure StaffMapping where
  staffPassID : String
  teamName : String
  createdAt : Int
deriving Repr, DecidableEq

/-- Model of Go `strconv.ParseInt(s, 10, 64)`: an optional leading sign
followed by a non-empty run of decimal digits, whose value must fit in a
signed 64-bit integer.  Any other input is a parse error (`none`). -/
def parseInt64 (s : String) : Option Int :=
  let signDigits : Bool × List Char :=
    match s.data with
    | '-' :: rest => (true, rest)
    | '+' :: rest => (false, rest)
    | cs => (false, cs)
  let ds := signDigits.2
  if ds.isEmpty then none
  else if ds.all Char.isDigit then
    let n : Nat := ds.foldl (fun acc c => acc * 10 + (c.toNat - 48)) 0
    let v : Int := if signDigits.1 then -(n : Int) else (n : Int)
    if -(2 ^ 63) ≤ v ∧ v ≤ 2 ^ 63 - 1 then some v else none
  else none

/-- The row loop of `LoadMappingFromCSV` in `main.go`: iterate over the
parsed records with their index, skip index 0 (the header), skip records
with fewer than 3 fields, skip records whose third field does not parse
as a base-10 integer, and append a `StaffMapping` for every other row. -/
def loadRowsAux : Nat → List (List String) → List StaffMapping
  | _, [] => []
  | i, record :: rest =>
    if i == 0 then loadRowsAux (i + 1) rest
    else if record.length < 3 then loadRowsAux (i + 1) rest
    else
      match parseInt64 (record.getD 2 "") with
      | none => loadRowsAux (i + 1) rest
      | some createdAt =>
          { staffPassID := record.getD 0 ""
            teamName := record.getD 1 ""
            createdAt := createdAt } :: loadRowsAux (i + 1) rest

/-- The pure part of `LoadMappingFromCSV`: the row loop started at
index 0, as in the Go `for i, record := range records` loop. -/
def loadRows (records : List (List String)) : List StaffMapping :=
  loadRowsAux 0 records

/-- Outcome of the external effects of `LoadMappingFromCSV`: the
`os.Open` call can fail, `csv.Reader.ReadAll` can fail, or a list of
records (each a list of fields) is produced. -/
inductive CSVSource where
  | openFailure
  | readFailure
  | rows (records : List (List String))
deriving Repr, DecidableEq

/-- `LoadMappingFromCSV` from `main.go`, with the file-system and CSV
reader effects abstracted into the `CSVSource` argument: an open failure
or a read failure is returned as an error (wrapping the message used in
the Go code) and carries no data; otherwise the row loop runs and its
result is returned with a nil error. -/
def LoadMappingFromCSV : CSVSource → Except String (List StaffMapping)
  | .openFailure => .error "unable to open CSV file"
  | .readFailure => .error "error reading CSV file"
  | .rows records => .ok (loadRows records)

/-- `BuildLookupMap` from `main.go`: fold over the mappings, inserting
`StaffPassID ↦ TeamName` into the map.  The Go map is modelled as a
function `String → Option String`, and the assignment
`lookup[mapping.StaffPassID] = mapping.TeamName` as a pointwise update. -/
def BuildLookupMap (mappings : List StaffMapping) : String → Option String :=
  mappings.foldl
    (fun lookup m k => if k == m.staffPassID then some m.teamName else lookup k)
    (fun _ => none)

/-- `Redemption` from `main.go`: a redemption record with the team name
and the timestamp (epoch milliseconds) at which redemption occurred. -/
structure Redemption where
  teamName : String
  redeemedAt : Int
deriving Repr, DecidableEq

/-- The state of a `RedemptionManager`: its `redemptions` map, modelled
as an association list queried with `List.lookup`.  Keys are only ever
inserted when absent, so insertion appends a binding at the end. -/
abbrev RMState := List (String × Redemption)

/-- `NewRedemptionManager` from `main.go`: an empty redemptions map. -/
def NewRedemptionManager : RMState := []

/-- `IsEligible` from `main.go`: true iff no redemption record exists
for `teamName`.  The mutex acquisition has no observable effect in a
sequential model of one atomic operation. -/
def IsEligible (rm : RMState) (teamName : String) : Bool :=
  (rm.lookup teamName).isNone

/-- `AddRedemption` from `main.go`: under the mutex, if a record for
`teamName` exists return an error and leave the store unchanged;
otherwise create a record stamped with the current time (`now`, passed
in since `time.Now()` is an external effect), store it, and return it.
Returns the Go function's result paired with the updated store. -/
def AddRedemption (rm : RMState) (teamName : String) (now : Int) :
    Except String Redemption × RMState :=
  if (rm.lookup teamName).isSome then
    (.error "team has already redeemed their gift", rm)
  else
    let redemption : Redemption := { teamName := teamName, redeemedAt := now }
    (.ok redemption, rm ++ [(teamName, redemption)])

/-- Whether a call to `AddRedemption` succeeded (returned a record and a
nil error in the Go code). -/
def succeeded : Except String Redemption → Bool
  | .ok _ => true
  | .error _ => false

/-- One atomic operation on a `RedemptionManager`.  Each Go method holds
the single mutex `mu` for its whole body, so a concurrent history is a
sequential interleaving of these operations. -/
inductive Op where
  | isEligible (teamName : String)
  | addRedemption (teamName : String) (now : Int)
deriving Repr, DecidableEq

/-- Effect of one operation on the store: `IsEligible` is a pure read,
`AddRedemption` updates the store as defined above. -/
def step (rm : RMState) : Op → RMState
  | .isEligible _ => rm
  | .addRedemption t now => (AddRedemption rm t now).2

/-- The store reached by running a sequence of operations from
`NewRedemptionManager`. -/
def run (ops : List Op) : RMState :=
  ops.foldl step NewRedemptionManager

/-- Whether an operation is an `AddRedemption` call for team `t`. -/
def addsFor (t : String) : Op → Bool
  | .addRedemption s _ => s == t
  | .isEligible _ => false

/-- Run a batch of `AddRedemption` calls for the same team (one per
timestamp in `times`) sequentially on `rm`, collecting for each call
whether it succeeded.  This models the serialization, by the single
mutex, of `times.length` concurrent calls. -/
def runAdds (t : String) : List Int → RMState → List Bool
  | [], _ => []
  | now :: rest, rm =>
    let r := AddRedemption rm t now
    succeeded r.1 :: runAdds t rest r.2

/-- A data row as the spec describes it: valid iff it has at least 3
fields and its third field parses as a base-10 integer; a valid row is
converted using its first three fields. -/
def specRow (record : List String) : Option StaffMapping :=
  if 3 ≤ record.length then
    (parseInt64 (record.getD 2 "")).map fun createdAt =>
      { staffPassID := record.getD 0 ""
        teamName := record.getD 1 ""
        createdAt := createdAt }
  else none

/-- The team name of the last occurrence of staff pass ID `k` in the
sequence, as the spec describes the lookup table's content. -/
def lastTeamFor (ms : List StaffMapping) (k : String) : Option String :=
  (ms.reverse.find? fun m => k == m.staffPassID).map StaffMapping.teamName

example : parseInt64 "1623772799000" = some 1623772799000 := by decide
example : parseInt64 "-42" = some (-42) := by decide
example : parseInt64 "+7" = some 7 := by decide
example : parseInt64 "" = none := by decide
example : parseInt64 "12a" = none := by decide
example : parseInt64 "-" = none := by decide
example :
    loadRows [["staff_pass_id", "team_name", "created_at"],
      ["STAFF_H123804820G", "BASS", "1623772799000"],
      ["MANAGER_T999888420B", "RUST", "1623772799000"],
      ["BOSS_T000000001P", "RUST", "1623872111000"]] =
    [⟨"STAFF_H123804820G", "BASS", 1623772799000⟩,
     ⟨"MANAGER_T999888420B", "RUST", 1623772799000⟩,
     ⟨"BOSS_T000000001P", "RUST", 1623872111000⟩] := by decide
example :
    BuildLookupMap [⟨"ID1", "TeamA", 1000⟩, ⟨"ID2", "TeamB", 2000⟩] "ID1" =
      some "TeamA" := by decide
example :
    BuildLookupMap [⟨"ID1", "TeamA", 1000⟩, ⟨"ID1", "TeamB", 2000⟩] "ID1" =
      some "TeamB" := by decide
example : IsEligible NewRedemptionManager "RUST" = true := by decide
example :
    succeeded (AddRedemption NewRedemptionManager "RUST" 5).1 = true := by decide
example :
    runAdds "RUST" [1, 2, 3] NewRedemptionManager = [true, false, false] := by
  decide

/-! ### Helper lemmas about the store -/

theorem lookup_append (l1 l2 : RMState) (k : String) :
    (l1 ++ l2).lookup k = ((l1.lookup k).orElse fun _ => l2.lookup k) := by
  induction l1 with
  | nil => simp [List.lookup, Option.orElse]
  | cons p rest ih =>
    cases p with
    | mk a b =>
      by_cases h : k == a
      · simp [List.lookup, h, Option.orElse]
      · simp [List.lookup, h, ih]

theorem lookup_singleton (k t : String) (r : Redemption) :
    ([(t, r)] : RMState).lookup k = if k == t then some r else none := by
  by_cases h : k == t <;> simp [List.lookup, h]

theorem not_mem_keys_of_lookup_none (l : RMState) (k : String) :
    l.lookup k = none → k ∉ l.map Prod.fst := by
  induction l with
  | nil => intro _ hmem; simp at hmem
  | cons p rest ih =>
    intro h hmem
    cases p with
    | mk a b =>
      by_cases hb : k == a
      · simp [List.lookup, hb] at h
      · rw [List.map_cons, List.mem_cons] at hmem
        rcases hmem with hmem | hmem
        · exact hb (beq_iff_eq.mpr hmem)
        · have hb2 : (k == a) = false := by simpa using hb
          simp only [List.lookup, hb2] at h
          exact ih h hmem

theorem addRedemption_state (rm : RMState) (t : String) (now : Int) :
    (AddRedemption rm t now).2 =
      if (rm.lookup t).isSome then rm else rm ++ [(t, ⟨t, now⟩)] := by
  by_cases h : (rm.lookup t).isSome <;> simp [AddRedemption, h]

theorem addRedemption_result (rm : RMState) (t : String) (now : Int) :
    (AddRedemption rm t now).1 =
      if (rm.lookup t).isSome then
        Except.error "team has already redeemed their gift"
      else Except.ok ⟨t, now⟩ := by
  by_cases h : (rm.lookup t).isSome <;> simp [AddRedemption, h]

/-! ### C2, C3, C9 -/

/-- C2: `AddRedemption(team_name)` fails with the AlreadyRedeemed error iff a
record for `team_name` already exists, and on failure the store is unchanged;
otherwise it succeeds, appends exactly one new record for `team_name` whose
`TeamName` field equals `team_name`, and returns that record.  Two sequential
calls for the same team give success then AlreadyRedeemed, and the record
stored by the first call is still there, unchanged, after the second. -/
theorem addRedemption_correct (rm : RMState) (t : String) (n1 n2 : Int) :
    (succeeded (AddRedemption rm t n1).1 = true ↔ rm.lookup t = none) ∧
    ((AddRedemption rm t n1).1 = Except.error "team has already redeemed their gift" ↔
      (rm.lookup t).isSome = true) ∧
    ((rm.lookup t).isSome = true →
      AddRedemption rm t n1 = (Except.error "team has already redeemed their gift", rm)) ∧
    (rm.lookup t = none →
      AddRedemption rm t n1 = (Except.ok ⟨t, n1⟩, rm ++ [(t, ⟨t, n1⟩)]) ∧
      (Redemption.mk t n1).teamName = t) ∧
    (rm.lookup t = none →
      succeeded (AddRedemption rm t n1).1 = true ∧
      succeeded (AddRedemption (AddRedemption rm t n1).2 t n2).1 = false ∧
      (AddRedemption (AddRedemption rm t n1).2 t n2).2 = (AddRedemption rm t n1).2 ∧
      (AddRedemption rm t n1).2.lookup t = some ⟨t, n1⟩) := by
  cases hl : rm.lookup t with
  | some r =>
    refine ⟨?_, ?_, ?_, ?_, ?_⟩
    · simp [addRedemption_result, hl, succeeded]
    · simp [addRedemption_result, hl]
    · intro _
      have h1 := addRedemption_result rm t n1
      have h2 := addRedemption_state rm t n1
      rw [hl] at h1 h2
      simp at h1 h2
      exact Prod.ext h1 h2
    · intro hc; simp [hl] at hc
    · intro hc; simp [hl] at hc
  | none =>
    have hstate : (AddRedemption rm t n1).2 = rm ++ [(t, ⟨t, n1⟩)] := by
      simp [addRedemption_state, hl]
    have hres : (AddRedemption rm t n1).1 = Except.ok ⟨t, n1⟩ := by
      simp [addRedemption_result, hl]
    have hlook : (rm ++ [(t, ⟨t, n1⟩)] : RMState).lookup t = some ⟨t, n1⟩ := by
      rw [lookup_append, hl, lookup_singleton]
      simp
    refine ⟨?_, ?_, ?_, ?_, ?_⟩
    · simp [hres, succeeded]
    · simp [hres, hl]
    · intro hc; simp [hl] at hc
    · intro _
      exact ⟨Prod.ext hres hstate, rfl⟩
    · intro _
      refine ⟨by simp [hres, succeeded], ?_, ?_, by rw [hstate]; exact hlook⟩
      · rw [hstate, addRedemption_result, hlook]
        simp [succeeded]
      · rw [hstate, addRedemption_state, hlook]
        simp
  
/-- Witness for C2 at a concrete store: the two-sequential-calls clause at
the empty store and team "RUST". -/
theorem addRedemption_correct_witness :
    succeeded (AddRedemption NewRedemptionManager "RUST" 1).1 = true ∧
    succeeded (AddRedemption (AddRedemption NewRedemptionManager "RUST" 1).2 "RUST" 2).1 = false ∧
    (AddRedemption (AddRedemption NewRedemptionManager "RUST" 1).2 "RUST" 2).2 =
      (AddRedemption NewRedemptionManager "RUST" 1).2 ∧
    (AddRedemption NewRedemptionManager "RUST" 1).2.lookup "RUST" = some ⟨"RUST", 1⟩ :=
  (addRedemption_correct NewRedemptionManager "RUST" 1 2).2.2.2.2 rfl

/-- C3: `IsEligible(team_name)` returns true iff no redemption record for
`team_name` exists in the store, and the operation leaves the store
unchanged (a pure read). -/
theorem isEligible_correct (rm : RMState) (t : String) :
    (IsEligible rm t = true ↔ rm.lookup t = none) ∧
    step rm (Op.isEligible t) = rm := by
  exact ⟨by simp [IsEligible, Option.isNone_iff_eq_none], rfl⟩

/-- C9: `AddRedemption` succeeds exactly when `IsEligible` is true on the
same store: both test emptiness of the store's entry for the team. -/
theorem addRedemption_succeeds_iff_eligible (rm : RMState) (t : String) (now : Int) :
    succeeded (AddRedemption rm t now).1 = IsEligible rm t := by
  cases hl : rm.lookup t with
  | none => simp [addRedemption_result, hl, succeeded, IsEligible]
  | some r => simp [addRedemption_result, hl, succeeded, IsEligible]

/-! ### Reachable-state invariants (C1) -/

theorem mem_step (rm : RMState) (op : Op) (p : String × Redemption) :
    p ∈ rm → p ∈ step rm op := by
  intro h
  cases op with
  | isEligible t => exact h
  | addRedemption t now =>
    rw [step, addRedemption_state]
    by_cases hs : (rm.lookup t).isSome
    · simpa [hs]
    · simp only [hs, if_false]
      exact List.mem_append_left _ h

theorem mem_foldl_step (ops : List Op) (s : RMState) (p : String × Redemption) :
    p ∈ s → p ∈ ops.foldl step s := by
  induction ops generalizing s with
  | nil => exact fun h => h
  | cons op rest ih => exact fun h => ih (step s op) (mem_step s op p h)

theorem nodupKeys_step (rm : RMState) (op : Op) :
    (rm.map Prod.fst).Nodup → ((step rm op).map Prod.fst).Nodup := by
  intro h
  cases op with
  | isEligible t => exact h
  | addRedemption t now =>
    rw [step, addRedemption_state]
    by_cases hs : (rm.lookup t).isSome
    · simpa [hs]
    · have hnone : rm.lookup t = none := Option.not_isSome_iff_eq_none.mp hs
      have ht : t ∉ rm.map Prod.fst := not_mem_keys_of_lookup_none rm t hnone
      rw [if_neg hs, List.map_append, List.nodup_append]
      refine ⟨h, by simp, ?_⟩
      intro a ha hmem
      simp at hmem
      exact ht (hmem ▸ ha)

theorem nodupKeys_foldl (ops : List Op) (s : RMState) :
    (s.map Prod.fst).Nodup → ((ops.foldl step s).map Prod.fst).Nodup := by
  induction ops generalizing s with
  | nil => exact fun h => h
  | cons op rest ih => exact fun h => ih (step s op) (nodupKeys_step s op h)

/-- C1: in every reachable state of the manager each team name keys at most
one record (the key list of the store has no duplicates), and the store only
grows: a record present after running `ops` is still present, unchanged,
after running any extension `ops ++ more`. -/
theorem store_unique_and_grows (ops more : List Op) :
    ((run ops).map Prod.fst).Nodup ∧
    ∀ p ∈ run ops, p ∈ run (ops ++ more) := by
  constructor
  · exact nodupKeys_foldl ops NewRedemptionManager (by simp [NewRedemptionManager])
  · intro p hp
    rw [run, List.foldl_append]
    exact mem_foldl_step more _ p hp

/-- Witness for C1: the record stored by an `AddRedemption` for "RUST" is
still in the store after two further operations. -/
theorem store_unique_and_grows_witness :
    ("RUST", (⟨"RUST", 5⟩ : Redemption)) ∈ run [Op.addRedemption "RUST" 5] ∧
    ("RUST", (⟨"RUST", 5⟩ : Redemption)) ∈
      run ([Op.addRedemption "RUST" 5] ++
        [Op.isEligible "RUST", Op.addRedemption "RUST" 7]) :=
  ⟨by decide,
   (store_unique_and_grows [Op.addRedemption "RUST" 5]
      [Op.isEligible "RUST", Op.addRedemption "RUST" 7]).2 _ (by decide)⟩

/-! ### Temporal eligibility (C4) -/

theorem step_lookup_none (rm : RMState) (op : Op) (t : String) :
    (step rm op).lookup t = none ↔
      (rm.lookup t = none ∧ addsFor t op = false) := by
  cases op with
  | isEligible s => simp [step, addsFor]
  | addRedemption s now =>
    rw [step, addRedemption_state]
    by_cases hb : s == t
    · have hst : s = t := beq_iff_eq.mp hb
      subst hst
      by_cases hs : (rm.lookup s).isSome
      · have ⟨r, hr⟩ := Option.isSome_iff_exists.mp hs
        simp [hs, addsFor, hr]
      · have hnone : rm.lookup s = none := Option.not_isSome_iff_eq_none.mp hs
        simp [hs, addsFor, lookup_append, hnone, lookup_singleton, Option.orElse]
    · by_cases hs : (rm.lookup s).isSome
      · simp [hs, addsFor, hb]
      · have hb2 : (t == s) = false := by
          simp only [beq_eq_false_iff_ne]
          exact fun hc => hb (beq_iff_eq.mpr hc.symm)
        have hbf : (s == t) = false := by simpa using hb
        rw [if_neg hs, lookup_append, lookup_singleton]
        cases hl : rm.lookup t <;>
          simp [Option.orElse, hb2, addsFor, hbf, hl]

theorem foldl_lookup_none (ops : List Op) (t : String) :
    ∀ s : RMState, (ops.foldl step s).lookup t = none ↔
      (s.lookup t = none ∧ ∀ op ∈ ops, addsFor t op = false) := by
  induction ops with
  | nil => intro s; simp
  | cons op rest ih =>
    intro s
    rw [List.foldl_cons, ih (step s op), step_lookup_none, List.forall_mem_cons]
    tauto

/-- C4: for every operation sequence, `IsEligible(t)` is true exactly as long
as no `AddRedemption(t)` call has occurred (so it is true at every point
before the first one, which is the first successful one by the third
conjunct), and once false it stays false under any further operations:
redeemed is terminal. -/
theorem eligibility_temporal (ops more : List Op) (t : String) (n : Int) :
    (IsEligible (run ops) t = true ↔ ∀ op ∈ ops, addsFor t op = false) ∧
    (IsEligible (run ops) t = false → IsEligible (run (ops ++ more)) t = false) ∧
    ((∀ op ∈ ops, addsFor t op = false) →
      succeeded (AddRedemption (run ops) t n).1 = true) := by
  have hchar : ∀ l : List Op, IsEligible (run l) t = true ↔
      ∀ op ∈ l, addsFor t op = false := by
    intro l
    rw [IsEligible, Option.isNone_iff_eq_none, run,
      foldl_lookup_none l t NewRedemptionManager]
    simp [NewRedemptionManager, List.lookup]
  refine ⟨hchar ops, ?_, ?_⟩
  · intro h
    rw [Bool.eq_false_iff] at h ⊢
    intro hc
    refine h ((hchar ops).mpr ?_)
    have := (hchar (ops ++ more)).mp hc
    intro op hop
    exact this op (List.mem_append_left more hop)
  · intro h
    have hnone : (run ops).lookup t = none := by
      have := (hchar ops).mpr h
      rwa [IsEligible, Option.isNone_iff_eq_none] at this
    simp [addRedemption_result, hnone, succeeded]

/-- Witness for C4: after one redemption for "RUST" the team stays
ineligible, while "RUST" can still be redeemed after unrelated operations
for "BASS". -/
theorem eligibility_temporal_witness :
    IsEligible (run ([Op.addRedemption "RUST" 1] ++ [Op.isEligible "RUST"])) "RUST" = false ∧
    succeeded (AddRedemption (run [Op.addRedemption "BASS" 1]) "RUST" 2).1 = true :=
  ⟨(eligibility_temporal [Op.addRedemption "RUST" 1] [Op.isEligible "RUST"] "RUST" 2).2.1
      (by decide),
   (eligibility_temporal [Op.addRedemption "BASS" 1] [] "RUST" 2).2.2 (by decide)⟩

/-! ### Lookup-map construction (C5) -/

theorem buildLookup_foldl (ms : List StaffMapping) (k : String) :
    ∀ acc : String → Option String,
      ms.foldl
        (fun lookup m k => if k == m.staffPassID then some m.teamName else lookup k)
        acc k =
      match ms.reverse.find? (fun m => k == m.staffPassID) with
      | some m => some m.teamName
      | none => acc k := by
  induction ms with
  | nil => intro acc; rfl
  | cons m rest ih =>
    intro acc
    rw [List.foldl_cons, ih, List.reverse_cons, List.find?_append]
    cases hf : rest.reverse.find? fun m => k == m.staffPassID with
    | some m2 => simp [Option.or]
    | none =>
      by_cases hk : k == m.staffPassID
      · simp [Option.or, List.find?, hk]
      · simp [Option.or, List.find?, hk]

/-- C5: the lookup map built by `BuildLookupMap` has, for every staff pass
ID `k`, exactly the team name of the last occurrence of `k` in the input
sequence (later rows overwrite earlier rows), and it has an entry for `k`
exactly when some input record carries `k`. -/
theorem buildLookupMap_last_occurrence_wins (ms : List StaffMapping) (k : String) :
    BuildLookupMap ms k = lastTeamFor ms k ∧
    ((BuildLookupMap ms k).isSome = true ↔ ∃ m ∈ ms, m.staffPassID = k) := by
  have h := buildLookup_foldl ms k (fun _ => none)
  constructor
  · rw [BuildLookupMap, h, lastTeamFor]
    cases hf : ms.reverse.find? fun m => k == m.staffPassID <;> simp
  · rw [BuildLookupMap, h]
    cases hf : ms.reverse.find? fun m => k == m.staffPassID with
    | none =>
      simp only [Option.isSome_none]
      constructor
      · intro hc; exact absurd hc (by simp)
      · rintro ⟨m, hm, hk⟩
        have := List.find?_eq_none.mp hf m (List.mem_reverse.mpr hm)
        simp [hk] at this
    | some m2 =>
      simp only [Option.isSome_some, true_iff]
      refine ⟨m2, List.mem_reverse.mp (List.mem_of_find?_eq_some hf), ?_⟩
      have := List.find?_some hf
      exact (beq_iff_eq.mp this).symm

/-! ### CSV row loading (C6, C7, C10) -/

theorem loadRowsAux_eq_filterMap (records : List (List String)) :
    ∀ n : Nat, n ≠ 0 → loadRowsAux n records = records.filterMap specRow := by
  induction records with
  | nil => intro n _; rfl
  | cons record rest ih =>
    intro n hn
    have hb : (n == 0) = false := by simpa using hn
    have hrec := ih (n + 1) (Nat.succ_ne_zero n)
    by_cases hlen : record.length < 3
    · have h3 : ¬ 3 ≤ record.length := by omega
      simp only [loadRowsAux, hb, Bool.false_eq_true, if_false, if_pos hlen,
        List.filterMap_cons, specRow, if_neg h3]
      exact hrec
    · have h3 : 3 ≤ record.length := Nat.not_lt.mp hlen
      cases hp : parseInt64 (record.getD 2 "") with
      | none =>
        simp only [loadRowsAux, hb, Bool.false_eq_true, if_false, if_neg hlen,
          List.filterMap_cons, specRow, if_pos h3, hp, Option.map_none']
        exact hrec
      | some c =>
        simp only [loadRowsAux, hb, Bool.false_eq_true, if_false, if_neg hlen,
          List.filterMap_cons, specRow, if_pos h3, hp, Option.map_some']
        rw [hrec]

/-- C6: on any parsed table, the loader returns, with no error, exactly the
valid data rows — the first row is dropped as the header whatever its
content, rows with fewer than 3 fields and rows whose third field does not
parse as a base-10 integer are skipped with no report — converted in input
row order. -/
theorem loadMapping_valid_rows_in_order (records : List (List String)) :
    loadRows records = (records.drop 1).filterMap specRow ∧
    LoadMappingFromCSV (CSVSource.rows records) =
      Except.ok ((records.drop 1).filterMap specRow) := by
  have h : loadRows records = (records.drop 1).filterMap specRow := by
    cases records with
    | nil => rfl
    | cons r rest =>
      have h0 : loadRowsAux 0 (r :: rest) = loadRowsAux 1 rest := rfl
      rw [loadRows, h0, loadRowsAux_eq_filterMap rest 1 one_ne_zero]
      rfl
  exact ⟨h, by rw [LoadMappingFromCSV, h]⟩

/-- C7: the load operation returns an error exactly when a structural
failure occurs (the file cannot be opened or the content cannot be parsed
as CSV at all), in which case it carries no data; a table of rows — however
malformed the individual rows are — always loads without error. -/
theorem loadMapping_error_iff_structural (src : CSVSource) :
    ((∃ e, LoadMappingFromCSV src = Except.error e) ↔
      src = CSVSource.openFailure ∨ src = CSVSource.readFailure) ∧
    ∀ records, LoadMappingFromCSV (CSVSource.rows records) =
      Except.ok (loadRows records) := by
  refine ⟨?_, fun records => rfl⟩
  cases src with
  | openFailure =>
    exact ⟨fun _ => Or.inl rfl, fun _ => ⟨"unable to open CSV file", rfl⟩⟩
  | readFailure =>
    exact ⟨fun _ => Or.inr rfl, fun _ => ⟨"error reading CSV file", rfl⟩⟩
  | rows records =>
    constructor
    · rintro ⟨e, he⟩
      exact absurd he (by simp [LoadMappingFromCSV])
    · rintro (h | h) <;> exact CSVSource.noConfusion h

/-- C10: a data row with more than 3 fields is accepted by the loader
provided its third field parses as a base-10 integer; only the first three
fields (staff_pass_id, team_name, created_at) are used and the fields
beyond the third are ignored (the result does not depend on them). -/
theorem extra_fields_ignored (hdr : List String) (a b c : String)
    (rest : List String) (n : Int) (h : parseInt64 c = some n) :
    specRow (a :: b :: c :: rest) = some ⟨a, b, n⟩ ∧
    specRow (a :: b :: c :: rest) = specRow [a, b, c] ∧
    loadRows [hdr, a :: b :: c :: rest] = [⟨a, b, n⟩] := by
  have hlen : 3 ≤ (a :: b :: c :: rest).length := by simp
  have hlt : ¬ ((a :: b :: c :: rest).length < 3) := by simp
  refine ⟨by simp [specRow, hlen, h], by simp [specRow, hlen, h], ?_⟩
  simp [loadRows, loadRowsAux, hlt, h]

/-- Witness for C10: a four-field row is accepted and its fourth field does
not appear in the produced record. -/
theorem extra_fields_ignored_witness :
    specRow ["ID9", "OPS", "17", "junk"] = some ⟨"ID9", "OPS", 17⟩ ∧
    specRow ["ID9", "OPS", "17", "junk"] = specRow ["ID9", "OPS", "17"] ∧
    loadRows [["x", "y", "z"], ["ID9", "OPS", "17", "junk"]] =
      [⟨"ID9", "OPS", 17⟩] :=
  extra_fields_ignored ["x", "y", "z"] "ID9" "OPS" "17" ["junk"] 17 (by decide)

/-! ### Serialized concurrent redemptions (C8) -/

theorem runAdds_replicate (t : String) (times : List Int) :
    ∀ rm : RMState, (rm.lookup t).isSome = true →
      runAdds t times rm = List.replicate times.length false := by
  induction times with
  | nil => intro rm _; rfl
  | cons now rest ih =>
    intro rm h
    have h1 : (AddRedemption rm t now).1 =
        Except.error "team has already redeemed their gift" := by
      rw [addRedemption_result, if_pos h]
    have h2 : (AddRedemption rm t now).2 = rm := by
      rw [addRedemption_state, if_pos h]
    simp only [runAdds]
    rw [h1, h2, ih rm h]
    simp [succeeded, List.replicate]

/-- C8: N concurrent `AddRedemption` calls for one team, serialized in any
order by the single mutex (each call's lock-protected body is one atomic
step of `runAdds`), give exactly 1 success and N-1 AlreadyRedeemed failures,
for every N ≥ 1 and every order and timing of the calls. -/
theorem concurrent_adds_one_success (t : String) (times : List Int)
    (h : times ≠ []) :
    (runAdds t times NewRedemptionManager).count true = 1 ∧
    (runAdds t times NewRedemptionManager).count false = times.length - 1 := by
  cases times with
  | nil => exact absurd rfl h
  | cons now rest =>
    have hnil : ¬ ((NewRedemptionManager.lookup t).isSome = true) := by
      simp [NewRedemptionManager, List.lookup]
    have h1 : (AddRedemption NewRedemptionManager t now).1 = Except.ok ⟨t, now⟩ := by
      rw [addRedemption_result, if_neg hnil]
    have h2 : (AddRedemption NewRedemptionManager t now).2 = [(t, ⟨t, now⟩)] := by
      rw [addRedemption_state, if_neg hnil]
      rfl
    have hsome : (([(t, (⟨t, now⟩ : Redemption))] : RMState).lookup t).isSome = true := by
      rw [lookup_singleton]
      simp
    simp only [runAdds]
    rw [h1, h2, runAdds_replicate t rest _ hsome]
    simp [succeeded, List.count_cons, List.count_replicate]

/-- Witness for C8: three serialized calls for "RUST" from a fresh manager
give one success and two failures. -/
theorem concurrent_adds_one_success_witness :
    (runAdds "RUST" [1, 2, 3] NewRedemptionManager).count true = 1 ∧
    (runAdds "RUST" [1, 2, 3] NewRedemptionManager).count false = 2 :=
  concurrent_adds_one_success "RUST" [1, 2, 3] (by decide)
